import Mathlib

/-!
Verification development for the `clique-fusion` Rust library: a shallow
embedding of its data model and operations, together with theorems settling
the specification claims against the code.

Modelling conventions, fixed once for the whole file:

* Scalars that the code keeps finite (`f64` positions, thresholds,
  covariance entries after validation) are modelled as exact rationals
  (`ℚ`).  The constructor-validation layer additionally models the IEEE
  special values (`NaN`, `±∞`) with the `F64` type, because
  `CovarianceMatrix::new` branches on `is_finite` before any arithmetic.
* Whenever the code compares a number against a square root
  (`m.norm() < 1e-15` in `safe_inverse`, and the `radius` bound handed to
  rstar's `locate_within_distance`), the embedding uses the decidable
  helpers `sqrt_lt_via_sq` / `le_sqrt_via_sq`; they are proven equivalent
  to the corresponding `Real.sqrt` comparisons below.  The one square root
  whose *value* flows onward, in `max_variance`, is embedded with `ratSqrt`,
  which agrees with the real square root exactly when the radicand is the
  square of a rational — true of every concrete input used in this file
  (the discriminant is `0` for the identity and zero matrices); the exact
  real-valued semantics `max_varianceR` is also defined and bridged.
* `HashSet<Id>` is `Finset ℕ`, `HashMap<Id, HashSet<Id>>` is
  `Finmap (fun _ : ℕ => Finset ℕ)` (whose equality is extensional, like
  `HashMap`'s `==`), and `Vec` is `List`.  Rust leaves hash-container
  iteration order unspecified; wherever the code iterates over one, the
  embedding iterates in ascending key order and, for ties in
  `max_by_key`-style selections, keeps the last maximum as Rust does.
* A Rust `panic!`/`expect` is modelled by returning `none` (for
  `CliqueIndex::insert`) or `Except.error` (for the `expect` on nalgebra's
  `pseudo_inverse`); debug-only `debug_assert!` checks are omitted, i.e.
  release semantics are embedded.
-/

attribute [local semireducible] Rat.mul Rat.inv Rat.add Rat.sub

deriving instance DecidableEq for Except

/-- Floor square root on `ℕ` (the largest `k` with `k * k ≤ n`), written as a
fold so that concrete instances reduce inside the kernel; it agrees with
`Nat.sqrt`. -/
def natSqrtFold (n : ℕ) : ℕ :=
  (List.range (n + 1)).foldl (fun acc k => if k * k ≤ n then k else acc) 0

/-- Exact rational square root helper: on squares of non-negative rationals
it returns the exact square root (see `ratSqrt_cast` below); elsewhere it is
a floor-style approximation.  Used only inside `max_variance`, whose every
concrete use in this file has a perfect-square discriminant. -/
def ratSqrt (q : ℚ) : ℚ :=
  (natSqrtFold q.num.toNat : ℚ) / (natSqrtFold q.den : ℚ)

/-- Decides `c ≤ Real.sqrt a` for `0 ≤ a` without computing the root: this is
how the embedding renders the f64 comparison `distance_2 <= radius` performed
by rstar's `locate_within_distance`, whose second argument the source sets to
`radius = (chi2 * combined).sqrt()`.  For `a < 0` the f64 root is `NaN` and
every comparison with it is false; the `0 ≤ a` conjunct reproduces that. -/
def le_sqrt_via_sq (c a : ℚ) : Bool :=
  decide (0 ≤ a) && (decide (c ≤ 0) || decide (c ^ 2 ≤ a))

/-- Decides `Real.sqrt a < c` for `0 ≤ a` without computing the root: this is
how the embedding renders the f64 comparison `m.norm() < 1e-15` in
`safe_inverse` (the Frobenius norm is the square root of `frobeniusNormSq`,
which is non-negative). -/
def sqrt_lt_via_sq (a c : ℚ) : Bool :=
  decide (0 < c) && decide (a < c ^ 2)

/-- Model of an `f64` value as seen by `CovarianceMatrix::new`: either a
finite value (carried exactly as a rational) or one of the special values.
Arithmetic is only ever performed by the code after `is_finite` checks, so
the embedding needs no arithmetic on the special values. -/
inductive F64 where
  | finite : ℚ → F64
  | inf : F64
  | ninf : F64
  | nan : F64
deriving DecidableEq

/-- Mirrors `f64::is_finite`. -/
def F64.is_finite : F64 → Bool
  | .finite _ => true
  | _ => false

/-- Model of nalgebra's `Matrix2<f64>` with entries `[[m11, m12], [m21, m22]]`. -/
structure Matrix2 where
  m11 : ℚ
  m12 : ℚ
  m21 : ℚ
  m22 : ℚ
deriving DecidableEq

/-- Mirrors `Matrix2::determinant`: `m11 * m22 - m21 * m12`. -/
def Matrix2.determinant (m : Matrix2) : ℚ :=
  m.m11 * m.m22 - m.m21 * m.m12

/-- Squared Frobenius norm of the matrix; nalgebra's `norm()` is its square
root. -/
def Matrix2.frobeniusNormSq (m : Matrix2) : ℚ :=
  m.m11 ^ 2 + m.m12 ^ 2 + m.m21 ^ 2 + m.m22 ^ 2

/-- Mirrors nalgebra's `Matrix2::try_inverse`: the inverse by the adjugate
formula when the determinant is non-zero, `none` when it is zero. -/
def Matrix2.try_inverse (m : Matrix2) : Option Matrix2 :=
  let det := m.determinant
  if det = 0 then none
  else some ⟨m.m22 / det, -m.m12 / det, -m.m21 / det, m.m11 / det⟩

/-- Mirrors nalgebra's `SVD::pseudo_inverse(eps)` on the matrices this code
can reach it with: `safe_inverse` only calls it on a *symmetric* matrix whose
determinant is zero (the `try_inverse` branch failed).  Such a matrix has
singular values `|m11 + m22|` and `0`, so the clipped pseudoinverse is
`m / (m11 + m22)^2` when `|m11 + m22| > eps` and the zero matrix otherwise.
nalgebra returns `Err` when `eps < 0`; the code's `expect` on that result is
the only panic site of `safe_inverse`. -/
def Matrix2.pseudo_inverse (m : Matrix2) (eps : ℚ) : Except String Matrix2 :=
  if eps < 0 then .error "epsilon must be non-negative"
  else
    let tr := m.m11 + m.m22
    if eps < |tr| then
      .ok ⟨m.m11 / tr ^ 2, m.m12 / tr ^ 2, m.m21 / tr ^ 2, m.m22 / tr ^ 2⟩
    else .ok ⟨0, 0, 0, 0⟩

/-- Relative error used for checking that matrices are positive
semi-definite: the source constant `PSD_EPS_REL = 1e-12`. -/
def PSD_EPS_REL : ℚ := 1 / 10 ^ 12

/-- A covariance matrix, stored by its three scalars as in the source
(`Matrix2::new(xx, xy, xy, yy)` keeps exactly these, symmetrically). -/
structure CovarianceMatrix where
  xx : ℚ
  yy : ℚ
  xy : ℚ
deriving DecidableEq

/-- The error returned when the given variances do not form a valid
covariance matrix; it carries the three offending inputs. -/
structure InvalidCovarianceMatrix where
  xx : F64
  yy : F64
  xy : F64
deriving DecidableEq

/-- The stored symmetric matrix, as a `Matrix2`. -/
def CovarianceMatrix.toMatrix2 (c : CovarianceMatrix) : Matrix2 :=
  ⟨c.xx, c.xy, c.xy, c.yy⟩

/-- Mirrors `CovarianceMatrix::new`: reject any non-finite component, then
accept exactly when the scale-relative PSD test passes, with
`scale = xx.abs().max(yy.abs()).max(xy.abs())`, `diag_tol = 1e-12 * scale`,
`det_tol = 1e-12 * scale * scale` and `det = xx * yy - xy * xy` (the source
computes it with `mul_add`, which is the exact product-sum here). -/
def CovarianceMatrix.new (xx yy xy : F64) :
    Except InvalidCovarianceMatrix CovarianceMatrix :=
  match xx, yy, xy with
  | .finite a, .finite b, .finite c =>
    let scale := max (max |a| |b|) |c|
    let diag_tol := PSD_EPS_REL * scale
    let det_tol := PSD_EPS_REL * scale * scale
    let det := a * b - c * c
    if a ≥ -diag_tol ∧ b ≥ -diag_tol ∧ det ≥ -det_tol then .ok ⟨a, b, c⟩
    else .error ⟨xx, yy, xy⟩
  | _, _, _ => .error ⟨xx, yy, xy⟩

/-- Mirrors `CovarianceMatrix::identity`: the identity matrix `(1, 1, 0)`. -/
def CovarianceMatrix.identity : CovarianceMatrix := ⟨1, 1, 0⟩

/-- Mirrors `CovarianceMatrix::determinant` (via `Matrix2::determinant` on
the symmetric storage). -/
def CovarianceMatrix.determinant (c : CovarianceMatrix) : ℚ :=
  c.toMatrix2.determinant

/-- Elementwise sum, mirroring the `Add` impl on `CovarianceMatrix`. -/
instance : Add CovarianceMatrix :=
  ⟨fun a b => ⟨a.xx + b.xx, a.yy + b.yy, a.xy + b.xy⟩⟩

/-- Mirrors `CovarianceMatrix::max_variance`:
`0.5 * (trace + sqrt(max(trace^2 - 4*det, 0)))`.  The square root is taken
with `ratSqrt`; `max_varianceR` below is the exact real-valued semantics and
`max_variance_cast` bridges the two on perfect-square discriminants. -/
def CovarianceMatrix.max_variance (c : CovarianceMatrix) : ℚ :=
  let trace := c.xx + c.yy
  let det := c.determinant
  let discrim := ratSqrt (max (trace * trace - 4 * det) 0)
  (1 / 2) * (trace + discrim)

/-- Mirrors `CovarianceMatrix::safe_inverse` with its panic made explicit:
`Except.error` is the `expect` on `pseudo_inverse` failing.  The happy path
returns `.ok none` when the Frobenius norm is below `1e-15`, otherwise
`.ok (some inverse)`. -/
def CovarianceMatrix.safe_inverse_run (c : CovarianceMatrix) :
    Except String (Option Matrix2) :=
  let m := c.toMatrix2
  if sqrt_lt_via_sq m.frobeniusNormSq (1 / 10 ^ 15) then .ok none
  else
    match m.try_inverse with
    | some inv => .ok (some inv)
    | none => (m.pseudo_inverse (1 / 10 ^ 12)).map some

/-- Mirrors `CovarianceMatrix::safe_inverse` as the `Option` the callers see;
the error branch (the `expect` panic) is proven unreachable in
`safe_inverse_never_panics_and_none_iff`. -/
def CovarianceMatrix.safe_inverse (c : CovarianceMatrix) : Option Matrix2 :=
  match c.safe_inverse_run with
  | .ok r => r
  | .error _ => none

/-- Model of `Observation`: a 2D position, the covariance of its positional
error, and an optional opaque context id (Rust: `Option<Uuid>`; modelled with
`Option ℕ` since only equality of contexts is ever used). -/
structure Observation where
  x : ℚ
  y : ℚ
  error : CovarianceMatrix
  context : Option ℕ
deriving DecidableEq

/-- Model of `Unique<Observation, Id>` with the id type instantiated at `ℕ`
(the engine only needs equality, hash and copy on ids).  The source name
`Unique` is taken by the Lean core library, hence the suffix. -/
structure UniqueObs where
  data : Observation
  id : ℕ
deriving DecidableEq

/-- Mirrors `mahalanobis_squared`: `none` models the `f64::INFINITY` that the
source substitutes when `safe_inverse` is undefined (comparing that infinity
against a finite threshold is always false, which `is_compatible_with`
reproduces).  Otherwise the value is `delta^T * inv_cov * delta`. -/
def mahalanobis_squared (dx dy : ℚ) (covariance : CovarianceMatrix) :
    Option ℚ :=
  covariance.safe_inverse.map fun inv =>
    dx * (inv.m11 * dx + inv.m12 * dy) + dy * (inv.m21 * dx + inv.m22 * dy)

/-- Mirrors `Observation::is_compatible_with`: the squared Mahalanobis
distance under the summed covariance, compared against the chi-squared
threshold; an undefined inverse gives `+∞` and hence `false`. -/
def Observation.is_compatible_with (self other : Observation) (chi2 : ℚ) :
    Bool :=
  let combined := self.error + other.error
  match mahalanobis_squared (self.x - other.x) (self.y - other.y) combined with
  | none => false
  | some d2 => decide (d2 ≤ chi2)

/-- Mirrors the context filter in `SpatialIndex::find_compatible`: true
exactly when both observations carry a context and the contexts are equal. -/
def same_context (a b : Option ℕ) : Bool :=
  match a, b with
  | some c1, some c2 => decide (c1 = c2)
  | _, _ => false

/-- Mirrors the `PointDistance` impl on `Unique<Observation, Id>`:
`distance_2` is the *squared* Euclidean distance
`dx.mul_add(dx, dy * dy) = dx*dx + dy*dy`. -/
def UniqueObs.distance_2 (o : UniqueObs) (px py : ℚ) : ℚ :=
  let dx := o.data.x - px
  let dy := o.data.y - py
  dx * dx + dy * dy

/-- Model of `SpatialIndex`: the r-tree is modelled as the list of stored
observations (`locate_within_distance` is an exhaustive filter over it, which
is rstar's contract), plus the cached `max_variance`. -/
structure SpatialIndex where
  tree : List UniqueObs
  max_variance : ℚ
deriving DecidableEq

/-- Mirrors `SpatialIndex::default`: empty tree, `max_variance = 0.0`. -/
def SpatialIndex.default : SpatialIndex := ⟨[], 0⟩

/-- Mirrors `SpatialIndex::from_observations`: `max_variance` is the maximum
of the observations' `max_variance` values (`0.0` for an empty batch, via
`max_by(...).unwrap_or(0.0)`), and the tree bulk-loads the batch. -/
def SpatialIndex.from_observations (observations : List UniqueObs) :
    SpatialIndex :=
  let mv :=
    match observations.map (fun o => o.data.error.max_variance) with
    | [] => (0 : ℚ)
    | a :: rest => rest.foldl max a
  ⟨observations, mv⟩

/-- Mirrors `SpatialIndex::insert` (release semantics: the duplicate-id
`debug_assert` is omitted): update the cached maximum variance, then insert
into the tree. -/
def SpatialIndex.insert (idx : SpatialIndex) (observation : UniqueObs) :
    SpatialIndex :=
  ⟨idx.tree ++ [observation],
   max idx.max_variance observation.data.error.max_variance⟩

/-- Mirrors `SpatialIndex::find_compatible`.  The source computes
`radius = query.max_compatibility_radius(chi2, self.max_variance)`, i.e. the
*unsquared* bound `sqrt(chi2 * (λ_max(Σ_query) + max_variance))`, and passes
it to rstar's `locate_within_distance`, whose second argument is a bound on
the *squared* distance `distance_2`; the embedding renders that comparison
faithfully as `distance_2 ≤ sqrt(chi2 * combined)` via `le_sqrt_via_sq`.
Then the source filters out the query's own id, same-context pairs, and
candidates failing the exact compatibility test, in that order. -/
def SpatialIndex.find_compatible (idx : SpatialIndex) (query : UniqueObs)
    (chi2 : ℚ) : List UniqueObs :=
  let radius_sq_arg := chi2 * (query.data.error.max_variance + idx.max_variance)
  ((((idx.tree.filter fun other =>
        le_sqrt_via_sq (other.distance_2 query.data.x query.data.y)
          radius_sq_arg).filter fun other =>
      decide (query.id ≠ other.id)).filter fun other =>
    !same_context query.data.context other.data.context).filter fun obs =>
  obs.data.is_compatible_with query.data chi2)

/-- Adjacency maps: `HashMap<Id, HashSet<Id>>` modelled extensionally. -/
abbrev Graph := Finmap fun _ : ℕ => Finset ℕ

/-- Neighbour set of a vertex, empty when the vertex is not a key; matches
the `graph.get(&v).cloned().unwrap_or_default()` pattern of the source. -/
def Graph.nbrs (g : Graph) (v : ℕ) : Finset ℕ :=
  (g.lookup v).getD ∅

/-- Mirrors `SpatialIndex::compatibility_graph`: one `find_compatible` query
per stored observation, keeping only the entries whose neighbour set is
non-empty, collected into the adjacency map. -/
def SpatialIndex.compatibility_graph (idx : SpatialIndex) (chi2 : ℚ) :
    Graph :=
  idx.tree.foldl
    (fun g obs =>
      let compatibles : Finset ℕ :=
        ((idx.find_compatible obs chi2).map (fun other => other.id)).toFinset
      if compatibles = ∅ then g else g.insert obs.id compatibles)
    ∅

/-- Ascending enumeration of a finite set of naturals, used wherever the
source iterates over a `HashSet` (whose order Rust leaves unspecified): the
embedding fixes ascending order.  Written with `List.range` so that concrete
instances reduce inside the kernel. -/
def ascElems (s : Finset ℕ) : List ℕ :=
  (List.range (s.sup id + 1)).filter fun v => v ∈ s

/-- Number of neighbours of `v` lying in `p ∪ x`: the key that
`select_optimal_pivot` maximises (`graph.get(&v).map_or(0, ...)` counts `0`
for a vertex missing from the map, as does the empty `Graph.nbrs`). -/
def pivot_key (g : Graph) (p x : Finset ℕ) (v : ℕ) : ℕ :=
  ((g.nbrs v).filter fun n => n ∈ p ∨ n ∈ x).card

/-- Mirrors `select_optimal_pivot`: the vertex of `p ∪ x` with the most
neighbours in `p ∪ x`, `none` when `p ∪ x` is empty.  Rust's `max_by_key`
keeps the *last* maximum of its (unspecified) iteration order; the embedding
iterates in ascending order and keeps the last maximum. -/
def select_optimal_pivot (g : Graph) (p x : Finset ℕ) : Option ℕ :=
  (ascElems (p ∪ x)).foldl
    (fun best v =>
      match best with
      | none => some v
      | some b => if pivot_key g p x b ≤ pivot_key g p x v then some v else some b)
    none

/-- The candidate list of one `bron_kerbosch_pivot` invocation, mirroring
`select_optimal_pivot(...).and_then(|p| graph.get(&p)).map(|n| p \ n)
.unwrap_or_default()`: empty when there is no pivot or the pivot has no
entry in the map. -/
def bk_candidates (g : Graph) (p x : Finset ℕ) : List ℕ :=
  match select_optimal_pivot g p x with
  | none => []
  | some pivot =>
    match g.lookup pivot with
    | none => []
    | some pivot_neighbors => ascElems (p \ pivot_neighbors)

/-- The `for vertex in candidates` loop body of `bron_kerbosch_pivot`,
threading the mutated `p` and `x` (`p.remove(&vertex); x.insert(vertex)`)
through the iterations; the recursive call is passed in as `bk`. -/
def bk_loop (g : Graph) (bk : Finset ℕ → Finset ℕ → Finset ℕ → List (Finset ℕ))
    (r : Finset ℕ) : List ℕ → Finset ℕ → Finset ℕ → List (Finset ℕ)
  | [], _, _ => []
  | v :: rest, p, x =>
    let neighbors := g.nbrs v
    bk (insert v r) (p ∩ neighbors) (x ∩ neighbors) ++
      bk_loop g bk r rest (p.erase v) (insert v x)

/-- Mirrors `bron_kerbosch_pivot`.  The Rust recursion carries no fuel; here
a `Nat` fuel makes the recursion structural.  Each recursive call strictly
decreases `|P| + |X|` on self-loop-free graphs (the only ones the engine
builds: `find_compatible` filters out the query's own id), so any fuel above
`|P| + |X|` is never exhausted; `find_maximal_cliques` passes
`graph.keys.card + 1`. -/
def bron_kerbosch_pivot (g : Graph) :
    ℕ → Finset ℕ → Finset ℕ → Finset ℕ → List (Finset ℕ)
  | 0, _, _, _ => []
  | fuel + 1, r, p, x =>
    if p = ∅ ∧ x = ∅ then [r]
    else if p = ∅ then []
    else bk_loop g (bron_kerbosch_pivot g fuel) r (bk_candidates g p x) p x

/-- Mirrors `find_maximal_cliques`: empty result on the empty graph,
otherwise Bron–Kerbosch with `R = ∅`, `P =` all keys, `X = ∅`. -/
def find_maximal_cliques (graph : Graph) : List (Finset ℕ) :=
  if graph.keys = ∅ then []
  else bron_kerbosch_pivot graph (graph.keys.card + 1) ∅ graph.keys ∅

/-- Model of `CliqueIndex` over `ℕ` ids. -/
structure CliqueIndex where
  spatial_index : SpatialIndex
  compatibility_graph : Graph
  cliques : List (Finset ℕ)
  chi2 : ℚ
deriving DecidableEq

/-- Mirrors `CliqueIndex::new`: empty index with the given threshold. -/
def CliqueIndex.new (chi2 : ℚ) : CliqueIndex :=
  ⟨SpatialIndex.default, ∅, [], chi2⟩

/-- Mirrors `CliqueIndex::from_observations`: bulk-build the spatial index,
collect its compatibility graph, and run the clique enumeration on it (the
result is stored as returned — the source applies no size filtering). -/
def CliqueIndex.from_observations (observations : List UniqueObs) (chi2 : ℚ) :
    CliqueIndex :=
  let spatial_index := SpatialIndex.from_observations observations
  let compatibility_graph := spatial_index.compatibility_graph chi2
  let cliques := find_maximal_cliques compatibility_graph
  ⟨spatial_index, compatibility_graph, cliques, chi2⟩

/-- Mirrors `CliqueIndex::extract_subgraph` on one node: `none` models the
`expect("Node in affected region must exist in compatibility graph")`
panicking on a node with no entry. -/
def extract_subgraph_go (g : Graph) (affected_nodes : Finset ℕ) :
    List ℕ → Option Graph
  | [] => some ∅
  | v :: rest =>
    match g.lookup v with
    | none => none
    | some all_neighbors =>
      (extract_subgraph_go g affected_nodes rest).map fun sub =>
        sub.insert v (all_neighbors ∩ affected_nodes)

/-- Mirrors `CliqueIndex::extract_subgraph`: for each affected node keep only
the neighbours inside the affected region; `none` models the `expect` panic
on a node missing from the compatibility graph. -/
def extract_subgraph (g : Graph) (affected_nodes : Finset ℕ) : Option Graph :=
  extract_subgraph_go g affected_nodes (ascElems affected_nodes)

/-- Mirrors `CliqueIndex::update_cliques`: retain exactly the cliques
disjoint from the affected region, then append all newly computed ones. -/
def update_cliques (cliques : List (Finset ℕ)) (affected_nodes : Finset ℕ)
    (new_cliques : List (Finset ℕ)) : List (Finset ℕ) :=
  (cliques.filter fun clique => decide (clique ∩ affected_nodes = ∅)) ++
    new_cliques

/-- Mirrors `CliqueIndex::insert`; `none` models the panic path (the `expect`
inside `extract_subgraph`).  Steps, as in the source: find the mutually
compatible neighbours, insert into the spatial index, and — only when the
neighbour set is non-empty — add the edges, take the affected region to be
the changed nodes (`direct_neighbours ∪ {id}`) plus the current neighbours of
every changed node, re-enumerate the induced subgraph, and splice the result
into the clique set via `update_cliques`. -/
def CliqueIndex.insert (self : CliqueIndex) (observation : UniqueObs) :
    Option CliqueIndex :=
  let id := observation.id
  let direct_neighbours : Finset ℕ :=
    ((self.spatial_index.find_compatible observation self.chi2).map
      (fun o => o.id)).toFinset
  let spatial' := self.spatial_index.insert observation
  if direct_neighbours = ∅ then
    some ⟨spatial', self.compatibility_graph, self.cliques, self.chi2⟩
  else
    let g1 := self.compatibility_graph.insert id direct_neighbours
    let g2 := (ascElems direct_neighbours).foldl
      (fun g neighbour => g.insert neighbour (Insert.insert id (Graph.nbrs g neighbour)))
      g1
    let changed := Insert.insert id direct_neighbours
    let affected := changed ∪ changed.biUnion fun node => Graph.nbrs g2 node
    match extract_subgraph g2 affected with
    | none => none
    | some subgraph =>
      let new_cliques := find_maximal_cliques subgraph
      some ⟨spatial', g2, update_cliques self.cliques affected new_cliques,
        self.chi2⟩

/-- Folds `CliqueIndex::insert` over a list of observations, propagating the
panic (`none`) if any insertion hits it. -/
def CliqueIndex.insert_many (self : CliqueIndex) (observations : List UniqueObs) :
    Option CliqueIndex :=
  observations.foldl (fun acc o => acc.bind fun i => i.insert o) (some self)

/-- Exact real-number semantics of `CovarianceMatrix::max_variance`:
`0.5 * (trace + sqrt(max(trace^2 - 4*det, 0)))` with the real square root. -/
noncomputable def CovarianceMatrix.max_varianceR (c : CovarianceMatrix) : ℝ :=
  let trace : ℝ := (c.xx : ℝ) + (c.yy : ℝ)
  let det : ℝ := (c.xx : ℝ) * (c.yy : ℝ) - (c.xy : ℝ) * (c.xy : ℝ)
  let discrim := Real.sqrt (max (trace * trace - 4 * det) 0)
  (1 / 2) * (trace + discrim)

/-- Exact real-number semantics of `Observation::max_compatibility_radius`:
`sqrt(chi2_threshold * (self.error.max_variance() + max_other_variance))`. -/
noncomputable def Observation.max_compatibility_radiusR (self : Observation)
    (chi2_threshold max_other_variance : ℝ) : ℝ :=
  let combined_max_variance :=
    self.error.max_varianceR + max_other_variance
  Real.sqrt (chi2_threshold * combined_max_variance)

/-- Spec-side predicate: `t` is an eigenvalue of the stored symmetric matrix,
i.e. a root of `det(Σ - t I) = (xx - t)(yy - t) - xy² = 0`. -/
def CovarianceMatrix.IsEigenvalue (c : CovarianceMatrix) (t : ℝ) : Prop :=
  ((c.xx : ℝ) - t) * ((c.yy : ℝ) - t) - (c.xy : ℝ) * (c.xy : ℝ) = 0

/-- Spec-side predicate, following the words of the specification for
covariance validation: all three inputs are finite, and with
`s = max(|xx|, |yy|, |xy|)` and relative epsilon `1e-12` the scale-relative
PSD test holds: `xx ≥ -εs`, `yy ≥ -εs`, `xx·yy - xy² ≥ -εs²`. -/
def spec_accepts_covariance : F64 → F64 → F64 → Prop
  | .finite a, .finite b, .finite c =>
    let s := max (max |a| |b|) |c|
    a ≥ -(PSD_EPS_REL * s) ∧ b ≥ -(PSD_EPS_REL * s) ∧
      a * b - c ^ 2 ≥ -(PSD_EPS_REL * s ^ 2)
  | _, _, _ => False

instance (xx yy xy : F64) : Decidable (spec_accepts_covariance xx yy xy) := by
  rcases xx with a | _ | _ | _ <;> rcases yy with b | _ | _ | _ <;>
    rcases xy with c | _ | _ | _ <;>
    simp only [spec_accepts_covariance] <;> infer_instance

/-- Spec-side adjacency in the undirected reading of the stored map: the
edge is present in either direction (the two coincide whenever the map is
symmetric, which the specification asserts as an invariant). -/
def spec_adjacent (g : Graph) (u v : ℕ) : Bool :=
  decide (v ∈ Graph.nbrs g u) || decide (u ∈ Graph.nbrs g v)

/-- Spec-side predicate from §8 of the specification: `C` is a maximal clique
of the compatibility graph — all its vertices are in the graph, pairwise
adjacent, and no vertex outside `C` is adjacent to every vertex of `C`. -/
def spec_is_max_clique (g : Graph) (C : Finset ℕ) : Bool :=
  decide (∀ u ∈ C, u ∈ g.keys) &&
    decide (∀ u ∈ C, ∀ v ∈ C, u ≠ v → spec_adjacent g u v = true) &&
      decide (∀ w ∈ g.keys, w ∉ C → ¬ ∀ u ∈ C, spec_adjacent g w u = true)

/-- Invariant of the adjacency map that the pure-insert path maintains:
every id appearing in some neighbour set is itself a key.  The batch path
can violate it (see `compatibility_graph_asymmetric_after_batch`); the
insert path preserves it, and under it the `expect` inside
`extract_subgraph` is unreachable (`insert_many_new_never_panics`), which
delimits the scope of the panic exhibited for claim C10. -/
def Graph.ValuesSubKeys (g : Graph) : Prop :=
  ∀ u v : ℕ, v ∈ Graph.nbrs g u → v ∈ g.keys

/-- The exactly-zero covariance matrix (accepted by `CovarianceMatrix::new`;
used, with a second observation, in the counterexample runs below). -/
def covZero : CovarianceMatrix := ⟨0, 0, 0⟩

/-- Counterexample observation: zero covariance at the origin, id `0`. -/
def obsA : UniqueObs := ⟨⟨0, 0, covZero, none⟩, 0⟩

/-- Counterexample observation: identity covariance at `(1.75, 0)`, id `1`
(all coordinates used in this file are exactly representable as `f64`). -/
def obsB : UniqueObs := ⟨⟨7 / 4, 0, CovarianceMatrix.identity, none⟩, 1⟩

/-- Counterexample observation: identity covariance at `(3.5, 0)`, id `2`. -/
def obsC : UniqueObs := ⟨⟨7 / 2, 0, CovarianceMatrix.identity, none⟩, 2⟩

/-- Query observation for the spatial-completeness counterexample: identity
covariance at the origin, id `0`. -/
def obsP : UniqueObs := ⟨⟨0, 0, CovarianceMatrix.identity, none⟩, 0⟩

/-- Candidate observation for the spatial-completeness counterexample:
identity covariance at `(3, 0)`, id `1`. -/
def obsQ : UniqueObs := ⟨⟨3, 0, CovarianceMatrix.identity, none⟩, 1⟩

/-- Observations for the incremental-completeness counterexample: identity
covariances on a line at `x = 0, 3, 6, -3`, ids `0..3`, inserted in this
order with `chi2 = 50`.  The effective edge set is then `{0,1}, {1,2},
{0,3}`: the (buggy) prefilter admits squared distances up to
`sqrt(50 * 2) = 10`, so the distance-3 pairs pass (strictly) and the
distance-6 and distance-9 pairs do not, and every admitted pair passes the
exact test (`4.5 ≤ 50`). -/
def lineObservations : List UniqueObs :=
  [⟨⟨0, 0, CovarianceMatrix.identity, none⟩, 0⟩,
   ⟨⟨3, 0, CovarianceMatrix.identity, none⟩, 1⟩,
   ⟨⟨6, 0, CovarianceMatrix.identity, none⟩, 2⟩,
   ⟨⟨-3, 0, CovarianceMatrix.identity, none⟩, 3⟩]

/-- The index obtained by inserting `lineObservations` one at a time into
`CliqueIndex::new(50)` (no insertion panics; see
`insert_discards_neighbour_clique`). -/
def lineFinal : CliqueIndex :=
  ((CliqueIndex.new 50).insert_many lineObservations).getD
    (CliqueIndex.new 0)

/-!
Bridge lemmas: the decidable square-root comparisons used by the executable
model agree with the `Real.sqrt` comparisons the f64 code performs, and the
rational `max_variance` agrees with its real semantics whenever the
discriminant is a perfect square.
-/

theorem frobeniusNormSq_nonneg (m : Matrix2) : 0 ≤ m.frobeniusNormSq := by
  unfold Matrix2.frobeniusNormSq
  positivity

theorem le_sqrt_via_sq_iff (c a : ℚ) (ha : 0 ≤ a) :
    le_sqrt_via_sq c a = true ↔ (c : ℝ) ≤ Real.sqrt (a : ℝ) := by
  unfold le_sqrt_via_sq
  simp only [Bool.and_eq_true, Bool.or_eq_true, decide_eq_true_eq]
  rcases le_or_lt c 0 with hc | hc
  · refine ⟨fun _ => ?_, fun _ => ⟨ha, Or.inl hc⟩⟩
    exact le_trans (by exact_mod_cast hc) (Real.sqrt_nonneg _)
  · have hc' : (0 : ℝ) ≤ (c : ℝ) := by exact_mod_cast hc.le
    rw [Real.le_sqrt hc' (by exact_mod_cast ha)]
    constructor
    · rintro ⟨-, h | h⟩
      · exact absurd h (not_le.mpr hc)
      · exact_mod_cast h
    · intro h
      exact ⟨ha, Or.inr (by exact_mod_cast h)⟩

theorem sqrt_lt_via_sq_iff (a c : ℚ) :
    sqrt_lt_via_sq a c = true ↔ Real.sqrt (a : ℝ) < (c : ℝ) := by
  unfold sqrt_lt_via_sq
  simp only [Bool.and_eq_true, decide_eq_true_eq]
  rcases le_or_lt c 0 with hc | hc
  · constructor
    · rintro ⟨h, -⟩
      exact absurd h (not_lt.mpr hc)
    · intro h
      exact absurd (lt_of_le_of_lt (Real.sqrt_nonneg _) h)
        (not_lt.mpr (by exact_mod_cast hc))
  · rw [Real.sqrt_lt' (by exact_mod_cast hc)]
    constructor
    · rintro ⟨-, h⟩
      exact_mod_cast h
    · intro h
      exact ⟨hc, by exact_mod_cast h⟩

theorem ratSqrt_nonneg (q : ℚ) : 0 ≤ ratSqrt q := by
  unfold ratSqrt
  positivity

theorem ratSqrt_cast (q : ℚ) (h : ratSqrt q * ratSqrt q = q) :
    ((ratSqrt q : ℚ) : ℝ) = Real.sqrt (q : ℝ) := by
  have hsq : ((ratSqrt q : ℚ) : ℝ) ^ 2 = (q : ℝ) := by
    rw [sq]
    exact_mod_cast congrArg (fun x : ℚ => (x : ℝ)) h
  rw [← hsq, Real.sqrt_sq (by exact_mod_cast ratSqrt_nonneg q)]

theorem max_variance_cast (c : CovarianceMatrix)
    (h : ratSqrt (max ((c.xx + c.yy) * (c.xx + c.yy) - 4 * c.determinant) 0) *
        ratSqrt (max ((c.xx + c.yy) * (c.xx + c.yy) - 4 * c.determinant) 0) =
        max ((c.xx + c.yy) * (c.xx + c.yy) - 4 * c.determinant) 0) :
    ((c.max_variance : ℚ) : ℝ) = c.max_varianceR := by
  have hcast := ratSqrt_cast _ h
  unfold CovarianceMatrix.max_variance CovarianceMatrix.max_varianceR
  push_cast [Rat.cast_max] at hcast ⊢
  rw [hcast]
  have hdet : ((c.determinant : ℚ) : ℝ) =
      (c.xx : ℝ) * (c.yy : ℝ) - (c.xy : ℝ) * (c.xy : ℝ) := by
    unfold CovarianceMatrix.determinant CovarianceMatrix.toMatrix2
      Matrix2.determinant
    push_cast
    ring
  rw [hdet]

theorem max_varianceR_identity : CovarianceMatrix.identity.max_varianceR = 1 := by
  unfold CovarianceMatrix.max_varianceR CovarianceMatrix.identity
  norm_num

/-- Claim C1 (spatial completeness of `find_compatible`) — evaluation of the
code at a failing input.  With identity covariances at `(0, 0)` (the query,
id 0) and `(3, 0)` (id 1) and `chi2 = 6`, the stored observation satisfies
conditions (2)-(4) of §4.3 — distinct id, no shared context, mutually
compatible (squared Mahalanobis distance `9/2 ≤ 6`) — and its Euclidean
distance (`3`, i.e. `distance_2 = 9`) is within the claimed prune radius
`sqrt(chi2 * (λ_max + max_variance_seen)) = sqrt 12 ≈ 3.46`; yet
`find_compatible` returns nothing, because the source passes the unsquared
radius as rstar's squared-distance bound and `9 ≤ sqrt 12` fails. -/
theorem find_compatible_misses_compatible_observation :
    obsQ.id ≠ obsP.id ∧
    same_context obsP.data.context obsQ.data.context = false ∧
    Observation.is_compatible_with obsQ.data obsP.data 6 = true ∧
    obsQ.distance_2 obsP.data.x obsP.data.y = 3 ^ 2 ∧
    (3 : ℝ) ≤ obsP.data.max_compatibility_radiusR 6
      ((SpatialIndex.from_observations [obsP, obsQ]).max_variance : ℝ) ∧
    (SpatialIndex.from_observations [obsP, obsQ]).find_compatible obsP 6 = [] := by
  refine ⟨by decide, by decide, by decide, by decide, ?_, by decide⟩
  have hmv : (SpatialIndex.from_observations [obsP, obsQ]).max_variance = 1 := by
    decide
  rw [hmv]
  unfold Observation.max_compatibility_radiusR
  have herr : obsP.data.error = CovarianceMatrix.identity := rfl
  rw [herr, max_varianceR_identity]
  refine Real.le_sqrt_of_sq_le ?_
  norm_num

/-- Claim C2 (batch/incremental equivalence) — evaluation of the code at a
failing input.  For the two-observation batch `[obsA, obsB]` (zero covariance
at the origin; identity covariance at `(1.75, 0)`) with `chi2 = 6`, the batch
build produces the adjacency entry `1 ↦ {0}` and the clique list `[{1}]`,
while inserting the observations one at a time — in either order — produces
an empty graph and no cliques: the prefilter radius depends on the query's
own `λ_max` and on the `max_variance` seen so far, and the radius/squared-
distance confusion makes the candidate sets differ between the two paths. -/
theorem batch_and_incremental_runs_disagree :
    (CliqueIndex.from_observations [obsA, obsB] 6).compatibility_graph.lookup 1
      = some {0} ∧
    (CliqueIndex.from_observations [obsA, obsB] 6).cliques = [{1}] ∧
    ((CliqueIndex.new 6).insert_many [obsA, obsB]).map
      (fun i => (i.compatibility_graph.lookup 1, i.cliques)) = some (none, []) ∧
    ((CliqueIndex.new 6).insert_many [obsB, obsA]).map
      (fun i => (i.compatibility_graph.lookup 1, i.cliques)) = some (none, []) := by
  refine ⟨by decide, by decide, by decide, by decide⟩

/-- Claim C3 (maximality and completeness of the maintained clique set) —
evaluation of the code at a failing input.  Inserting identity-covariance
observations at `x = 0, 3, 6, -3` (ids 0..3) one at a time with
`chi2 = 50` panics nowhere and ends with compatibility edges
`{0,1}, {1,2}, {0,3}`; the set `{1, 2}` is then a maximal clique of the
graph with two vertices, yet it is absent from `cliques()`: the final
insert removed every stored clique meeting the affected region `{0, 1, 3}`
but re-enumerated only the region's induced subgraph, which does not
contain vertex 2. -/
theorem insert_discards_neighbour_clique :
    ((CliqueIndex.new 50).insert_many lineObservations).isSome = true ∧
    spec_is_max_clique lineFinal.compatibility_graph {1, 2} = true ∧
    ({1, 2} : Finset ℕ).card = 2 ∧
    ({1, 2} : Finset ℕ) ∉ lineFinal.cliques := by
  refine ⟨by decide, by decide, by decide, by decide⟩

/-- Claim C4 (compatibility-graph invariants) — evaluation of the code at a
failing input.  After the batch build over `[obsA, obsB]` with `chi2 = 6`,
the adjacency map is `{1 ↦ {0}}`: vertex `0` appears in `adj(1)` while `1`
does not appear in `adj(0)` (symmetry fails), and `0` is a value but not a
key (the key set is not a superset of the values). -/
theorem compatibility_graph_asymmetric_after_batch :
    0 ∈ Graph.nbrs
        (CliqueIndex.from_observations [obsA, obsB] 6).compatibility_graph 1 ∧
    1 ∉ Graph.nbrs
        (CliqueIndex.from_observations [obsA, obsB] 6).compatibility_graph 0 ∧
    0 ∉ (CliqueIndex.from_observations [obsA, obsB] 6).compatibility_graph.keys := by
  refine ⟨by decide, by decide, by decide⟩

/-- Claim C5 (no singleton cliques) — evaluation of the code at a failing
input.  The batch build over `[obsA, obsB]` with `chi2 = 6` stores the
singleton clique `{1}`: neither `from_observations` nor `update_cliques`
filters cliques by size, and on the malformed one-key adjacency map produced
by the batch path the Bron–Kerbosch enumeration emits a singleton. -/
theorem batch_stores_singleton_clique :
    (CliqueIndex.from_observations [obsA, obsB] 6).cliques = [{1}] ∧
    ({1} : Finset ℕ).card < 2 := by
  refine ⟨by decide, by decide⟩

/-- Claim C10 (panic-freedom of the insert path) — evaluation of the code at
a failing input.  On the index built by `from_observations [obsA, obsB]`
with `chi2 = 6`, inserting `obsC` (fresh id 2) finds the non-empty neighbour
set `{1}`, and the affected region `{0, 1, 2}` then contains vertex `0`,
which is not a key of the compatibility graph; the `expect` inside
`extract_subgraph` fires, i.e. `insert` panics (modelled by `none`). -/
theorem insert_hits_extract_subgraph_expect :
    (CliqueIndex.from_observations [obsA, obsB] 6).spatial_index.tree.map
      (fun o => o.id) = [0, 1] ∧
    obsC.id = 2 ∧
    ((CliqueIndex.from_observations [obsA, obsB] 6).spatial_index.find_compatible
        obsC 6).map (fun o => o.id) = [1] ∧
    (CliqueIndex.from_observations [obsA, obsB] 6).insert obsC = none := by
  refine ⟨by decide, by decide, by decide, by decide⟩

/-- Helper for claim C6: the validation behaviour of `CovarianceMatrix::new`
on three finite inputs. -/
theorem covariance_new_validation_of_finite (a b c : ℚ) :
    ((CovarianceMatrix.new (.finite a) (.finite b) (.finite c)).isOk = true ↔
      spec_accepts_covariance (.finite a) (.finite b) (.finite c)) ∧
    (spec_accepts_covariance (.finite a) (.finite b) (.finite c) →
      CovarianceMatrix.new (.finite a) (.finite b) (.finite c) = .ok ⟨a, b, c⟩) ∧
    (¬ spec_accepts_covariance (.finite a) (.finite b) (.finite c) →
      CovarianceMatrix.new (.finite a) (.finite b) (.finite c) =
        .error ⟨.finite a, .finite b, .finite c⟩) := by
  have key :
      (a ≥ -(PSD_EPS_REL * max (max |a| |b|) |c|) ∧
        b ≥ -(PSD_EPS_REL * max (max |a| |b|) |c|) ∧
        a * b - c * c ≥
          -(PSD_EPS_REL * max (max |a| |b|) |c| * max (max |a| |b|) |c|)) ↔
      spec_accepts_covariance (.finite a) (.finite b) (.finite c) := by
    unfold spec_accepts_covariance
    constructor
    · rintro ⟨h1, h2, h3⟩
      refine ⟨h1, h2, ?_⟩
      ring_nf at h3 ⊢
      linarith
    · rintro ⟨h1, h2, h3⟩
      refine ⟨h1, h2, ?_⟩
      ring_nf at h3 ⊢
      linarith
  simp only [CovarianceMatrix.new]
  split
  case isTrue hcond =>
    exact ⟨iff_of_true rfl (key.mp hcond), fun _ => rfl,
      fun hn => absurd (key.mp hcond) hn⟩
  case isFalse hcond =>
    exact ⟨iff_of_false (fun h => nomatch h)
        (fun h => absurd (key.mpr h) hcond),
      fun h => absurd (key.mpr h) hcond, fun _ => rfl⟩

/-- Claim C6 (covariance validation): `CovarianceMatrix::new` succeeds if and
only if all three inputs are finite and the scale-relative PSD test of the
specification holds; on success it returns exactly the matrix built from the
inputs, and in every other case it fails with `InvalidCovarianceMatrix`
carrying the three inputs.  (The spec-side acceptance predicate
`spec_accepts_covariance` is stated from the specification's words.) -/
theorem covariance_new_validation (xx yy xy : F64) :
    ((CovarianceMatrix.new xx yy xy).isOk = true ↔
      spec_accepts_covariance xx yy xy) ∧
    (∀ a b c : ℚ, xx = .finite a → yy = .finite b → xy = .finite c →
      spec_accepts_covariance xx yy xy →
      CovarianceMatrix.new xx yy xy = .ok ⟨a, b, c⟩) ∧
    (¬ spec_accepts_covariance xx yy xy →
      CovarianceMatrix.new xx yy xy = .error ⟨xx, yy, xy⟩) := by
  rcases xx with a | _ | _ | _ <;> rcases yy with b | _ | _ | _ <;>
    rcases xy with c | _ | _ | _ <;>
    try
      refine ⟨(covariance_new_validation_of_finite a b c).1, ?_,
        (covariance_new_validation_of_finite a b c).2.2⟩
      rintro a' b' c' ha hb hc h
      obtain rfl : a = a' := by injection ha
      obtain rfl : b = b' := by injection hb
      obtain rfl : c = c' := by injection hc
      exact (covariance_new_validation_of_finite a b c).2.1 h
  all_goals
    simp [CovarianceMatrix.new, spec_accepts_covariance, Except.isOk,
      Except.toBool]

/-- Witness for claim C6's theorem at concrete inputs: the exactly-zero
matrix is accepted, and a `NaN` component is rejected with the error carrying
the inputs (the specification's "accepts exact-zero matrix; rejects NaN"). -/
theorem covariance_new_validation_witness :
    (CovarianceMatrix.new (.finite 0) (.finite 0) (.finite 0)).isOk = true ∧
    CovarianceMatrix.new .nan (.finite 1) (.finite 0) =
      .error ⟨.nan, .finite 1, .finite 0⟩ :=
  ⟨(covariance_new_validation (.finite 0) (.finite 0) (.finite 0)).1.mpr
      (by decide),
    (covariance_new_validation .nan (.finite 1) (.finite 0)).2.2 (by decide)⟩

/-- Claim C7 (corrected): counterexample to the claim as stated.  The input
`xx = -2^-43, yy = 1, xy = 0` is accepted by `CovarianceMatrix::new`
(the scale is `1`, so the diagonal tolerance is `1e-12` and
`-2^-43 ≈ -1.14e-13` lies inside it) although its stored `xx` is negative —
the representation invariant `xx ≥ 0` does not hold exactly. -/
theorem covariance_new_accepts_negative_variance :
    CovarianceMatrix.new (.finite (-(1 / 2 ^ 43))) (.finite 1) (.finite 0) =
      .ok ⟨-(1 / 2 ^ 43), 1, 0⟩ ∧
    ¬ (0 ≤ (⟨-(1 / 2 ^ 43), 1, 0⟩ : CovarianceMatrix).xx) := by
  refine ⟨by decide, by decide⟩

/-- Claim C7 (amended): every matrix accepted by `CovarianceMatrix::new`
satisfies the stated invariants *within the scale-relative tolerance* used by
the validation: with `s = max(|xx|, |yy|, |xy|)` and `ε = 1e-12`, the stored
scalars satisfy `xx ≥ -εs`, `yy ≥ -εs` and `xx·yy - xy² ≥ -εs²` (not the
exact non-negativity the claim asserts; see the counterexample). -/
theorem covariance_new_invariant_within_tolerance (xx yy xy : F64)
    (v : CovarianceMatrix) (h : CovarianceMatrix.new xx yy xy = .ok v) :
    v.xx ≥ -(PSD_EPS_REL * max (max |v.xx| |v.yy|) |v.xy|) ∧
    v.yy ≥ -(PSD_EPS_REL * max (max |v.xx| |v.yy|) |v.xy|) ∧
    v.xx * v.yy - v.xy ^ 2 ≥
      -(PSD_EPS_REL * (max (max |v.xx| |v.yy|) |v.xy|) ^ 2) := by
  rcases xx with a | _ | _ | _ <;> rcases yy with b | _ | _ | _ <;>
    rcases xy with c | _ | _ | _ <;>
    simp only [CovarianceMatrix.new] at h <;>
    try exact Except.noConfusion h
  split at h
  case isTrue hcond =>
    obtain rfl : CovarianceMatrix.mk a b c = v := by injection h
    obtain ⟨h1, h2, h3⟩ := hcond
    refine ⟨h1, h2, ?_⟩
    ring_nf at h3 ⊢
    linarith
  case isFalse hcond =>
    exact Except.noConfusion h

/-- Witness for the amended claim C7 theorem, at the identity matrix. -/
theorem covariance_new_invariant_within_tolerance_witness :
    (⟨1, 1, 0⟩ : CovarianceMatrix).xx ≥
      -(PSD_EPS_REL * max (max |(⟨1, 1, 0⟩ : CovarianceMatrix).xx|
        |(⟨1, 1, 0⟩ : CovarianceMatrix).yy|) |(⟨1, 1, 0⟩ : CovarianceMatrix).xy|) ∧
    (⟨1, 1, 0⟩ : CovarianceMatrix).yy ≥
      -(PSD_EPS_REL * max (max |(⟨1, 1, 0⟩ : CovarianceMatrix).xx|
        |(⟨1, 1, 0⟩ : CovarianceMatrix).yy|) |(⟨1, 1, 0⟩ : CovarianceMatrix).xy|) ∧
    (⟨1, 1, 0⟩ : CovarianceMatrix).xx * (⟨1, 1, 0⟩ : CovarianceMatrix).yy -
        (⟨1, 1, 0⟩ : CovarianceMatrix).xy ^ 2 ≥
      -(PSD_EPS_REL * (max (max |(⟨1, 1, 0⟩ : CovarianceMatrix).xx|
        |(⟨1, 1, 0⟩ : CovarianceMatrix).yy|)
        |(⟨1, 1, 0⟩ : CovarianceMatrix).xy|) ^ 2) :=
  covariance_new_invariant_within_tolerance (.finite 1) (.finite 1) (.finite 0)
    ⟨1, 1, 0⟩ (by decide)

/-- Claim C8 (safe_inverse totality and None-condition): for every
`CovarianceMatrix`, `safe_inverse` never reaches its panic (`Except.isOk`
always holds of `safe_inverse_run`), and it returns `none` exactly when the
Frobenius norm of the stored matrix is below `1e-15`; in every other case it
returns some matrix. -/
theorem safe_inverse_never_panics_and_none_iff (c : CovarianceMatrix) :
    c.safe_inverse_run.isOk = true ∧
    (c.safe_inverse.isNone = true ↔
      Real.sqrt ((c.toMatrix2.frobeniusNormSq : ℚ) : ℝ) < (1 : ℝ) / 10 ^ 15) := by
  have hcast : (((1 : ℚ) / 10 ^ 15 : ℚ) : ℝ) = (1 : ℝ) / 10 ^ 15 := by
    push_cast
    norm_num
  have hbr : sqrt_lt_via_sq c.toMatrix2.frobeniusNormSq (1 / 10 ^ 15) = true ↔
      Real.sqrt ((c.toMatrix2.frobeniusNormSq : ℚ) : ℝ) < (1 : ℝ) / 10 ^ 15 := by
    rw [sqrt_lt_via_sq_iff, hcast]
  by_cases hif : sqrt_lt_via_sq c.toMatrix2.frobeniusNormSq (1 / 10 ^ 15) = true
  · have hrun : c.safe_inverse_run = .ok none := by
      simp only [CovarianceMatrix.safe_inverse_run, hif, if_true]
    have hsi : c.safe_inverse = none := by
      unfold CovarianceMatrix.safe_inverse
      rw [hrun]
    rw [hrun, hsi]
    exact ⟨rfl, iff_of_true rfl (hbr.mp hif)⟩
  · have hfalse : ¬ Real.sqrt ((c.toMatrix2.frobeniusNormSq : ℚ) : ℝ) <
        (1 : ℝ) / 10 ^ 15 := fun hh => hif (hbr.mpr hh)
    have hok : ∃ r, c.safe_inverse_run = .ok (some r) := by
      simp only [CovarianceMatrix.safe_inverse_run, hif, if_false]
      rcases htry : c.toMatrix2.try_inverse with _ | inv
      · show ∃ r,
            Except.map some (c.toMatrix2.pseudo_inverse (1 / 10 ^ 12)) =
              .ok (some r)
        simp only [Matrix2.pseudo_inverse]
        rw [if_neg (by norm_num)]
        split
        · exact ⟨_, rfl⟩
        · exact ⟨_, rfl⟩
      · exact ⟨inv, rfl⟩
    obtain ⟨r, hrun⟩ := hok
    have hsi : c.safe_inverse = some r := by
      unfold CovarianceMatrix.safe_inverse
      rw [hrun]
    rw [hrun, hsi]
    exact ⟨rfl, iff_of_false (fun hh => nomatch hh) hfalse⟩

/-- Claim C9 (pruning radius formula and monotonicity): for every
observation, `max_compatibility_radius(chi2, max_other_variance)` equals
`sqrt(chi2 * (λ_max + max_other_variance))` where `max_variance` is exactly
the largest eigenvalue of the observation's covariance; the radius is
non-negative, and for a non-negative chi-squared threshold it is
non-decreasing in `max_other_variance`. -/
theorem max_compatibility_radius_spec (o : Observation) (chi2 mov mov' : ℝ)
    (hchi : 0 ≤ chi2) (hmov : mov ≤ mov') :
    o.max_compatibility_radiusR chi2 mov =
      Real.sqrt (chi2 * (o.error.max_varianceR + mov)) ∧
    o.error.IsEigenvalue o.error.max_varianceR ∧
    (∀ t : ℝ, o.error.IsEigenvalue t → t ≤ o.error.max_varianceR) ∧
    0 ≤ o.max_compatibility_radiusR chi2 mov ∧
    o.max_compatibility_radiusR chi2 mov ≤
      o.max_compatibility_radiusR chi2 mov' := by
  set xx : ℝ := (o.error.xx : ℝ)
  set yy : ℝ := (o.error.yy : ℝ)
  set xy : ℝ := (o.error.xy : ℝ)
  have hD : 0 ≤ (xx + yy) * (xx + yy) - 4 * (xx * yy - xy * xy) := by
    nlinarith [sq_nonneg (xx - yy), sq_nonneg xy]
  have hmv : o.error.max_varianceR =
      (1 / 2) * ((xx + yy) +
        Real.sqrt ((xx + yy) * (xx + yy) - 4 * (xx * yy - xy * xy))) := by
    simp only [CovarianceMatrix.max_varianceR]
    rw [max_eq_left hD]
  set s : ℝ := Real.sqrt ((xx + yy) * (xx + yy) - 4 * (xx * yy - xy * xy))
    with hsdef
  have hs0 : 0 ≤ s := Real.sqrt_nonneg _
  have hs2 : s ^ 2 = (xx + yy) * (xx + yy) - 4 * (xx * yy - xy * xy) :=
    Real.sq_sqrt hD
  refine ⟨rfl, ?_, ?_, Real.sqrt_nonneg _, ?_⟩
  · unfold CovarianceMatrix.IsEigenvalue
    rw [hmv]
    linear_combination (1 / 4 : ℝ) * hs2
  · intro t ht
    unfold CovarianceMatrix.IsEigenvalue at ht
    rw [hmv]
    have h2 : (2 * t - (xx + yy)) ^ 2 = s ^ 2 := by
      linear_combination 4 * ht - hs2
    have habs : |2 * t - (xx + yy)| = |s| :=
      (sq_eq_sq_iff_abs_eq_abs _ _).mp h2
    have hle : 2 * t - (xx + yy) ≤ s := by
      calc 2 * t - (xx + yy) ≤ |2 * t - (xx + yy)| := le_abs_self _
        _ = |s| := habs
        _ = s := abs_of_nonneg hs0
    linarith
  · unfold Observation.max_compatibility_radiusR
    apply Real.sqrt_le_sqrt
    have hsum : o.error.max_varianceR + mov ≤ o.error.max_varianceR + mov' :=
      by linarith
    exact mul_le_mul_of_nonneg_left hsum hchi

/-- Witness for claim C9's theorem at a concrete input: the identity
covariance, `chi2 = 6`, and `max_other_variance` growing from `0` to `1`. -/
theorem max_compatibility_radius_spec_witness :
    (0 : ℝ) ≤ 6 ∧ (0 : ℝ) ≤ 1 ∧
    (obsP.data.max_compatibility_radiusR 6 0 =
        Real.sqrt (6 * (obsP.data.error.max_varianceR + 0)) ∧
      obsP.data.error.IsEigenvalue obsP.data.error.max_varianceR ∧
      (∀ t : ℝ, obsP.data.error.IsEigenvalue t →
        t ≤ obsP.data.error.max_varianceR) ∧
      0 ≤ obsP.data.max_compatibility_radiusR 6 0 ∧
      obsP.data.max_compatibility_radiusR 6 0 ≤
        obsP.data.max_compatibility_radiusR 6 1) :=
  ⟨by norm_num, by norm_num,
    max_compatibility_radius_spec obsP.data 6 0 1 (by norm_num) (by norm_num)⟩

/-!
Supporting development: the pure-insert path maintains the values-are-keys
invariant of the adjacency map, so on insert-only histories the `expect`
inside `extract_subgraph` can never fire — the panic exhibited for claim
C10 genuinely requires a batch-built (asymmetric) graph.
-/

theorem Graph.nbrs_insert (g : Graph) (a : ℕ) (X : Finset ℕ) (u : ℕ) :
    Graph.nbrs (g.insert a X) u = if u = a then X else Graph.nbrs g u := by
  unfold Graph.nbrs
  by_cases h : u = a
  · subst h
    rw [Finmap.lookup_insert]
    simp
  · rw [Finmap.lookup_insert_of_ne _ h, if_neg h]

theorem mem_ascElems (s : Finset ℕ) (v : ℕ) : v ∈ ascElems s ↔ v ∈ s := by
  unfold ascElems
  simp only [List.mem_filter, List.mem_range, decide_eq_true_eq]
  constructor
  · rintro ⟨-, hv⟩
    exact hv
  · intro hv
    exact ⟨Nat.lt_succ_of_le (Finset.le_sup (f := id) hv), hv⟩

theorem extract_subgraph_go_isSome (g : Graph) (A : Finset ℕ) :
    ∀ l : List ℕ, (∀ v ∈ l, v ∈ g) →
      (extract_subgraph_go g A l).isSome = true := by
  intro l
  induction l with
  | nil => intro _; rfl
  | cons v rest ih =>
    intro h
    have hv : v ∈ g := h v (List.mem_cons_self v rest)
    obtain ⟨nb, hnb⟩ := Option.isSome_iff_exists.mp (Finmap.lookup_isSome.mpr hv)
    have hrest := ih fun w hw => h w (List.mem_cons_of_mem _ hw)
    obtain ⟨sub, hsub⟩ := Option.isSome_iff_exists.mp hrest
    unfold extract_subgraph_go
    rw [hnb, hsub]
    rfl

theorem extract_subgraph_isSome (g : Graph) (A : Finset ℕ)
    (h : ∀ v ∈ A, v ∈ g) : (extract_subgraph g A).isSome = true :=
  extract_subgraph_go_isSome g A _ fun v hv => h v ((mem_ascElems A v).mp hv)

theorem fold_insert_mem_of_mem (id0 : ℕ) :
    ∀ (l : List ℕ) (g0 : Graph) (u : ℕ), u ∈ g0 →
      u ∈ l.foldl
        (fun g n => g.insert n (Insert.insert id0 (Graph.nbrs g n))) g0 := by
  intro l
  induction l with
  | nil => intro g0 u hu; exact hu
  | cons n rest ih =>
    intro g0 u hu
    exact ih _ u (Finmap.mem_insert.mpr (Or.inr hu))

theorem fold_insert_mem_of_mem_list (id0 : ℕ) :
    ∀ (l : List ℕ) (g0 : Graph) (n : ℕ), n ∈ l →
      n ∈ l.foldl
        (fun g m => g.insert m (Insert.insert id0 (Graph.nbrs g m))) g0 := by
  intro l
  induction l with
  | nil => intro g0 n hn; exact absurd hn (List.not_mem_nil n)
  | cons m rest ih =>
    intro g0 n hn
    rcases List.mem_cons.mp hn with rfl | hn'
    · exact fold_insert_mem_of_mem id0 rest _ n
        (Finmap.mem_insert.mpr (Or.inl rfl))
    · exact ih _ n hn'

theorem fold_insert_values (id0 : ℕ) (K : ℕ → Prop) (hid : K id0) :
    ∀ (l : List ℕ) (g0 : Graph), (∀ u v, v ∈ Graph.nbrs g0 u → K v) →
      ∀ u v, v ∈ Graph.nbrs
        (l.foldl (fun g n => g.insert n (Insert.insert id0 (Graph.nbrs g n))) g0)
        u → K v := by
  intro l
  induction l with
  | nil => intro g0 h; exact h
  | cons n rest ih =>
    intro g0 h
    refine ih _ ?_
    intro u v hv
    rw [Graph.nbrs_insert] at hv
    by_cases hu : u = n
    · rw [if_pos hu] at hv
      rcases Finset.mem_insert.mp hv with rfl | hv'
      · exact hid
      · exact h n v hv'
    · rw [if_neg hu] at hv
      exact h u v hv

theorem insert_some_of_valuesSubKeys (idx : CliqueIndex) (obs : UniqueObs)
    (h : Graph.ValuesSubKeys idx.compatibility_graph) :
    ∃ j, idx.insert obs = some j ∧
      Graph.ValuesSubKeys j.compatibility_graph := by
  unfold CliqueIndex.insert
  dsimp only
  set N := ((idx.spatial_index.find_compatible obs idx.chi2).map
    (fun o => o.id)).toFinset with hNdef
  by_cases hNe : N = ∅
  · rw [if_pos hNe]
    exact ⟨_, rfl, h⟩
  · rw [if_neg hNe]
    set g1 := idx.compatibility_graph.insert obs.id N with hg1def
    set g2 := (ascElems N).foldl
      (fun g neighbour =>
        g.insert neighbour (Insert.insert obs.id (Graph.nbrs g neighbour))) g1
      with hg2def
    set changed := Insert.insert obs.id N with hchdef
    set affected := changed ∪ changed.biUnion (fun node => Graph.nbrs g2 node)
      with haffdef
    have hK1 : ∀ u v, v ∈ Graph.nbrs g1 u →
        (v ∈ idx.compatibility_graph ∨ v = obs.id ∨ v ∈ N) := by
      intro u v hv
      rw [hg1def, Graph.nbrs_insert] at hv
      by_cases hu : u = obs.id
      · rw [if_pos hu] at hv
        exact Or.inr (Or.inr hv)
      · rw [if_neg hu] at hv
        exact Or.inl (Finmap.mem_keys.mp (h u v hv))
    have hK2 : ∀ u v, v ∈ Graph.nbrs g2 u →
        (v ∈ idx.compatibility_graph ∨ v = obs.id ∨ v ∈ N) := by
      rw [hg2def]
      exact fold_insert_values obs.id _ (Or.inr (Or.inl rfl)) (ascElems N) g1 hK1
    have hkeys : ∀ v, (v ∈ idx.compatibility_graph ∨ v = obs.id ∨ v ∈ N) →
        v ∈ g2 := by
      intro v hv
      rw [hg2def]
      rcases hv with hv | rfl | hv
      · exact fold_insert_mem_of_mem obs.id (ascElems N) g1 v
          (Finmap.mem_insert.mpr (Or.inr hv))
      · exact fold_insert_mem_of_mem obs.id (ascElems N) g1 obs.id
          (Finmap.mem_insert.mpr (Or.inl rfl))
      · exact fold_insert_mem_of_mem_list obs.id (ascElems N) g1 v
          ((mem_ascElems N v).mpr hv)
    have haff : ∀ v ∈ affected, v ∈ g2 := by
      intro v hv
      rw [haffdef] at hv
      rcases Finset.mem_union.mp hv with hv | hv
      · rw [hchdef] at hv
        rcases Finset.mem_insert.mp hv with rfl | hv'
        · exact hkeys obs.id (Or.inr (Or.inl rfl))
        · exact hkeys v (Or.inr (Or.inr hv'))
      · obtain ⟨x, -, hvx⟩ := Finset.mem_biUnion.mp hv
        exact hkeys v (hK2 x v hvx)
    obtain ⟨sub, hsub⟩ := Option.isSome_iff_exists.mp
      (extract_subgraph_isSome g2 affected haff)
    rw [hsub]
    refine ⟨_, rfl, ?_⟩
    intro u v hv
    exact Finmap.mem_keys.mpr (hkeys v (hK2 u v hv))

theorem insert_many_some_of_valuesSubKeys :
    ∀ (l : List UniqueObs) (idx : CliqueIndex),
      Graph.ValuesSubKeys idx.compatibility_graph →
      ∃ j, idx.insert_many l = some j ∧
        Graph.ValuesSubKeys j.compatibility_graph := by
  intro l
  induction l with
  | nil => intro idx h; exact ⟨idx, rfl, h⟩
  | cons o rest ih =>
    intro idx h
    obtain ⟨j, hj, hjinv⟩ := insert_some_of_valuesSubKeys idx o h
    obtain ⟨k, hk, hkinv⟩ := ih j hjinv
    refine ⟨k, ?_, hkinv⟩
    unfold CliqueIndex.insert_many at hk ⊢
    rw [List.foldl_cons]
    simpa [hj] using hk

theorem insert_many_new_never_panics (chi2 : ℚ) (l : List UniqueObs) :
    ((CliqueIndex.new chi2).insert_many l).isSome = true := by
  have hinv : Graph.ValuesSubKeys (CliqueIndex.new chi2).compatibility_graph := by
    intro u v hv
    simp [CliqueIndex.new, Graph.nbrs, Finmap.lookup_empty] at hv
  obtain ⟨j, hj, -⟩ := insert_many_some_of_valuesSubKeys l (CliqueIndex.new chi2) hinv
  rw [hj]
  rfl
